import Mathlib

/-!
Verification of the red4lib archive codec against its specification.

The definitions below are a shallow embedding of the Rust sources:
  * `src/kraken.rs` — compression adapter and worst-case-size estimators,
  * `src/cr2w.rs` — the cooked-resource (CR2W) header reader,
  * `src/archive/lxrs.rs` — the LxrsFooter serializer/deserializer,
  * `src/archive/mod.rs` — the packer (`write_archive`, `make_entry`,
    `write_index`, `pad_until_page`) and the extractor
    (`extract_segments`, `decompress_segment`).

Byte streams are modelled as `List Nat` (each element a byte value).
External collaborators that the spec declares out of scope — the Kraken
codec proper, SHA-1, CRC-64 and FNV-1a/64 — are parameters of the
embedding (`Codec`, and function arguments `sha1`, `crc`, `fnv`).
The iteration order of Rust's `HashMap` is unspecified; it is modelled
by an explicit reordering parameter `iter`.
-/

set_option maxRecDepth 100000

namespace Red4Lib

/-- A byte stream: a list of byte values in `0..255`. -/
abbrev Bytes := List Nat

/-- Little-endian 2-byte encoding (byteorder `write_u16`). -/
def u16le (n : Nat) : Bytes := [n % 256, n / 2 ^ 8 % 256]

/-- Little-endian 4-byte encoding (byteorder `write_u32`). -/
def u32le (n : Nat) : Bytes :=
  [n % 256, n / 2 ^ 8 % 256, n / 2 ^ 16 % 256, n / 2 ^ 24 % 256]

/-- Little-endian 8-byte encoding (byteorder `write_u64`). -/
def u64le (n : Nat) : Bytes :=
  [n % 256, n / 2 ^ 8 % 256, n / 2 ^ 16 % 256, n / 2 ^ 24 % 256,
   n / 2 ^ 32 % 256, n / 2 ^ 40 % 256, n / 2 ^ 48 % 256, n / 2 ^ 56 % 256]

/-- Little-endian value of a byte list. -/
def leVal (bs : Bytes) : Nat := bs.foldr (fun b acc => b + 256 * acc) 0

/-- `read_exact` semantics: `n` bytes at absolute position `pos`, and the new
position; fails when fewer than `n` bytes remain. -/
def readBytes (d : Bytes) (pos n : Nat) : Option (Bytes × Nat) :=
  let r := (d.drop pos).take n
  if r.length = n then some (r, pos + n) else none

/-- byteorder `read_u16`. -/
def readU16 (d : Bytes) (pos : Nat) : Option (Nat × Nat) :=
  (readBytes d pos 2).map (fun p => (leVal p.1, p.2))

/-- byteorder `read_u32`. -/
def readU32 (d : Bytes) (pos : Nat) : Option (Nat × Nat) :=
  (readBytes d pos 4).map (fun p => (leVal p.1, p.2))

/-- byteorder `read_u64`. -/
def readU64 (d : Bytes) (pos : Nat) : Option (Nat × Nat) :=
  (readBytes d pos 8).map (fun p => (leVal p.1, p.2))

/-- `read_null_terminated_string` (src/io.rs): bytes up to the first `0x00`;
fails only on end of input before a terminator. -/
def readNTS (d : Bytes) (pos : Nat) : Option (Bytes × Nat) :=
  let rest := d.drop pos
  let s := rest.takeWhile (fun b => b != 0)
  match rest.get? s.length with
  | some _ => some (s, pos + s.length + 1)
  | none => none

/-- `HashMap::insert` on an association list: replaces the value of an
existing key in place, otherwise appends the new binding. -/
def insertReplace {α : Type} : List (Nat × α) → Nat → α → List (Nat × α)
  | [], k, v => [(k, v)]
  | (k2, v2) :: rest, k, v =>
    if k2 = k then (k, v) :: rest else (k2, v2) :: insertReplace rest k v

/-- `HashMap::get` on an association list. -/
def lookupA {α : Type} (m : List (Nat × α)) (k : Nat) : Option α :=
  (m.find? (fun p => p.1 == k)).map (fun p => p.2)

/-! ## Compression adapter (src/kraken.rs) -/

/-- `kraken::MAGIC`, the KARK frame marker. -/
def KRAKEN_MAGIC : Nat := 0x4B52414B

/-- The external Kraken codec, out of scope for the spec; modelled by its
call contract only.  `kcompress src level` is the compressed output of
`Kraken_Compress` (whose return value is its length), `kdecompress src n`
the output of `Kraken_Decompress` into a buffer of `n` expected bytes. -/
structure Codec where
  kcompress : Bytes → Nat → Bytes
  kdecompress : Bytes → Nat → Bytes

/-- `compress` (src/kraken.rs): below 256 bytes the destination buffer is
replaced by a clone of the source and its length returned; otherwise the
codec is called at the given level.  The result is the pair of the final
destination contents and the returned length. -/
def compress (c : Codec) (src : Bytes) (level : Nat) : Bytes × Nat :=
  if src.length < 256 then (src, src.length)
  else (c.kcompress src level, (c.kcompress src level).length)

/-- Wrap of a natural into the `u64` range (Rust `u64` overflow
semantics). -/
def wrap64 (n : Nat) : Nat := n % 2 ^ 64

/-- `as i32` on a `u64` value: two's-complement reinterpretation of the low
32 bits. -/
def toI32 (n : Nat) : Int :=
  let m : Nat := n % 2 ^ 32
  if m < 2 ^ 31 then (m : Int) else (m : Int) - 2 ^ 32

/-- `get_compressed_buffer_size_needed` (src/kraken.rs lines 68-71): the
shift-form worst-case estimator computed in `u64` and truncated `as i32`. -/
def get_compressed_buffer_size_needed (count : Nat) : Int :=
  let a := wrap64 (count + 0x3ffff)
  let b := (a >>> 0x3f) &&& 0x3ffff
  let c := wrap64 ((wrap64 (a + b) >>> 0x12) * 0x112)
  toI32 (wrap64 (c + count))

/-- Two's-complement wrap of an integer into the `i32` range (Rust release
overflow semantics). -/
def wrapI32 (z : Int) : Int := (z + 2 ^ 31) % 2 ^ 32 - 2 ^ 31

/-- `get_compressed_buffer_size_needed_kraken` (src/kraken.rs lines 73-75):
the division-form estimator, computed in `i32` (Rust `/` truncates toward
zero). -/
def get_compressed_buffer_size_needed_kraken (size : Int) : Int :=
  wrapI32 (size + wrapI32 (274 * Int.tdiv (wrapI32 (size + 0x3FFFF)) 0x40000))

/-- Ceiling division on naturals, `ceil(a / b) = (a + b - 1) / b`; the form
the spec states the estimator law with. -/
def ceilDiv (a b : Nat) : Nat := (a + b - 1) / b

/-! ## Cooked-resource header reader (src/cr2w.rs) -/

/-- `CR2WFileHeader`. -/
structure CR2WFileHeader where
  version : Nat
  flags : Nat
  time_stamp : Nat
  build_version : Nat
  objects_end : Nat
  buffers_end : Nat
  crc32 : Nat
  num_chunks : Nat
deriving DecidableEq

/-- `CR2WTable`: a `{offset, item_count, crc32}` record. -/
structure CR2WTable where
  offset : Nat
  item_count : Nat
  crc32 : Nat
deriving DecidableEq

/-- `CR2WNameInfo`. -/
structure CR2WNameInfo where
  offset : Nat
  hash : Nat
deriving DecidableEq

/-- `CR2WImportInfo`. -/
structure CR2WImportInfo where
  offset : Nat
  class_name : Nat
  flags : Nat
deriving DecidableEq

/-- `CR2WPropertyInfo`. -/
structure CR2WPropertyInfo where
  class_name : Nat
  class_flags : Nat
  property_name : Nat
  property_flags : Nat
  hash : Nat
deriving DecidableEq

/-- `CR2WExportInfo`. -/
structure CR2WExportInfo where
  class_name : Nat
  object_flags : Nat
  parent_id : Nat
  data_size : Nat
  data_offset : Nat
  template : Nat
  crc32 : Nat
deriving DecidableEq

/-- `CR2WBufferInfo`. -/
structure CR2WBufferInfo where
  flags : Nat
  index : Nat
  offset : Nat
  disk_size : Nat
  mem_size : Nat
  crc32 : Nat
deriving DecidableEq

/-- `CR2WEmbeddedInfo`. -/
structure CR2WEmbeddedInfo where
  import_index : Nat
  chunk_index : Nat
  path_hash : Nat
deriving DecidableEq

/-- `Import`: a resolved import row. -/
structure Import where
  class_name : Bytes
  depot_path : Bytes
  flags : Nat
deriving DecidableEq

/-- `CR2WFileInfo`. -/
structure CR2WFileInfo where
  header : CR2WFileHeader
  names_table : List CR2WNameInfo
  imports_table : List CR2WImportInfo
  properties_table : List CR2WPropertyInfo
  exports_table : List CR2WExportInfo
  buffers_table : List CR2WBufferInfo
  embeds_table : List CR2WEmbeddedInfo
  strings : List (Nat × Bytes)
  names : List Bytes
  imports : List Import

/-- Reader for `CR2WFileHeader` fields, in on-disk order. -/
def readCR2WFileHeader (d : Bytes) (pos : Nat) : Option (CR2WFileHeader × Nat) := do
  let (version, p1) ← readU32 d pos
  let (flags, p2) ← readU32 d p1
  let (time_stamp, p3) ← readU64 d p2
  let (build_version, p4) ← readU32 d p3
  let (objects_end, p5) ← readU32 d p4
  let (buffers_end, p6) ← readU32 d p5
  let (crc32, p7) ← readU32 d p6
  let (num_chunks, p8) ← readU32 d p7
  some (⟨version, flags, time_stamp, build_version, objects_end, buffers_end, crc32, num_chunks⟩, p8)

/-- Reader for a `CR2WTable` record. -/
def readCR2WTable (d : Bytes) (pos : Nat) : Option (CR2WTable × Nat) := do
  let (offset, p1) ← readU32 d pos
  let (item_count, p2) ← readU32 d p1
  let (crc32, p3) ← readU32 d p2
  some (⟨offset, item_count, crc32⟩, p3)

/-- Reader for a `CR2WNameInfo` record. -/
def readCR2WNameInfo (d : Bytes) (pos : Nat) : Option (CR2WNameInfo × Nat) := do
  let (offset, p1) ← readU32 d pos
  let (hash, p2) ← readU32 d p1
  some (⟨offset, hash⟩, p2)

/-- Reader for a `CR2WImportInfo` record. -/
def readCR2WImportInfo (d : Bytes) (pos : Nat) : Option (CR2WImportInfo × Nat) := do
  let (offset, p1) ← readU32 d pos
  let (class_name, p2) ← readU16 d p1
  let (flags, p3) ← readU16 d p2
  some (⟨offset, class_name, flags⟩, p3)

/-- Reader for a `CR2WPropertyInfo` record. -/
def readCR2WPropertyInfo (d : Bytes) (pos : Nat) : Option (CR2WPropertyInfo × Nat) := do
  let (class_name, p1) ← readU16 d pos
  let (class_flags, p2) ← readU16 d p1
  let (property_name, p3) ← readU16 d p2
  let (property_flags, p4) ← readU16 d p3
  let (hash, p5) ← readU64 d p4
  some (⟨class_name, class_flags, property_name, property_flags, hash⟩, p5)

/-- Reader for a `CR2WExportInfo` record. -/
def readCR2WExportInfo (d : Bytes) (pos : Nat) : Option (CR2WExportInfo × Nat) := do
  let (class_name, p1) ← readU16 d pos
  let (object_flags, p2) ← readU16 d p1
  let (parent_id, p3) ← readU32 d p2
  let (data_size, p4) ← readU32 d p3
  let (data_offset, p5) ← readU32 d p4
  let (template, p6) ← readU32 d p5
  let (crc32, p7) ← readU32 d p6
  some (⟨class_name, object_flags, parent_id, data_size, data_offset, template, crc32⟩, p7)

/-- Reader for a `CR2WBufferInfo` record. -/
def readCR2WBufferInfo (d : Bytes) (pos : Nat) : Option (CR2WBufferInfo × Nat) := do
  let (flags, p1) ← readU32 d pos
  let (index, p2) ← readU32 d p1
  let (offset, p3) ← readU32 d p2
  let (disk_size, p4) ← readU32 d p3
  let (mem_size, p5) ← readU32 d p4
  let (crc32, p6) ← readU32 d p5
  some (⟨flags, index, offset, disk_size, mem_size, crc32⟩, p6)

/-- Reader for a `CR2WEmbeddedInfo` record. -/
def readCR2WEmbeddedInfo (d : Bytes) (pos : Nat) : Option (CR2WEmbeddedInfo × Nat) := do
  let (import_index, p1) ← readU32 d pos
  let (chunk_index, p2) ← readU32 d p1
  let (path_hash, p3) ← readU64 d p2
  some (⟨import_index, chunk_index, path_hash⟩, p3)

/-- `read_table` (src/cr2w.rs): `item_count` records read sequentially. -/
def readTable {α : Type} (ri : Bytes → Nat → Option (α × Nat)) (d : Bytes) :
    Nat → Nat → Option (List α × Nat)
  | pos, 0 => some ([], pos)
  | pos, k + 1 => do
    let (x, p1) ← ri d pos
    let (xs, p2) ← readTable ri d p1 k
    some (x :: xs, p2)

/-- The bytes of the literal string substituted for an empty table-0 entry. -/
def noneBytes : Bytes := [78, 111, 110, 101]

/-- Loop body of `read_strings` (src/cr2w.rs): the `while` condition tests
the position recorded at the start of the previous iteration; each
iteration records the current position, reads one null-terminated string
(panicking — here: failing — at end of input) and inserts it keyed by that
position minus the table offset.  `fuel` is a termination bound only;
every successful read consumes at least one byte, so any fuel larger than
the stream length is never exhausted. -/
def readStringsGo (d : Bytes) (tblOff bound : Nat) :
    Nat → Nat → Nat → List (Nat × Bytes) → Option (List (Nat × Bytes) × Nat)
  | 0, _, _, _ => none
  | fuel + 1, offsetChk, pos, acc =>
    if offsetChk < bound then
      match readNTS d pos with
      | none => none
      | some (s, pos2) =>
        let s2 := if s = [] then noneBytes else s
        readStringsGo d tblOff bound fuel pos pos2 (insertReplace acc (pos - tblOff) s2)
    else some (acc, pos)

/-- `read_strings` (src/cr2w.rs): reads the packed string table. -/
def read_strings (d : Bytes) (pos : Nat) (t : CR2WTable) : Option (List (Nat × Bytes) × Nat) :=
  readStringsGo d t.offset (t.offset + t.item_count) (d.length + 2) pos pos []

/-- `read_cr2w_header` (src/cr2w.rs lines 240-297), as the source is
written: after the magic, the fixed header and the ten `CR2WTable`
records, it reads strings from table 0, names from table 1, imports from
table 2, and then properties, exports, buffers and embeds all with the
item count of table 3. -/
def read_cr2w_header (d : Bytes) : Option CR2WFileInfo := do
  let (magic, p0) ← readU32 d 0
  if magic ≠ 0x57325243 then none else do
  let (header, p1) ← readCR2WFileHeader d p0
  let (tables, p2) ← readTable readCR2WTable d p1 10
  let (strings, p3) ← read_strings d p2 (tables.getD 0 ⟨0, 0, 0⟩)
  let (names_table, p4) ← readTable readCR2WNameInfo d p3 (tables.getD 1 ⟨0, 0, 0⟩).item_count
  let (imports_table, p5) ← readTable readCR2WImportInfo d p4 (tables.getD 2 ⟨0, 0, 0⟩).item_count
  let (properties_table, p6) ← readTable readCR2WPropertyInfo d p5 (tables.getD 3 ⟨0, 0, 0⟩).item_count
  let (exports_table, p7) ← readTable readCR2WExportInfo d p6 (tables.getD 3 ⟨0, 0, 0⟩).item_count
  let (buffers_table, p8) ← readTable readCR2WBufferInfo d p7 (tables.getD 3 ⟨0, 0, 0⟩).item_count
  let (embeds_table, _p9) ← readTable readCR2WEmbeddedInfo d p8 (tables.getD 3 ⟨0, 0, 0⟩).item_count
  let names ← names_table.mapM (fun f => lookupA strings f.offset)
  let imports ← imports_table.mapM (fun info => do
    let cn ← names.get? info.class_name
    let dp ← lookupA strings info.offset
    some (⟨cn, dp, info.flags⟩ : Import))
  some ⟨header, names_table, imports_table, properties_table, exports_table,
        buffers_table, embeds_table, strings, names, imports⟩

/-- The CR2W header reader as the spec words it (spec section 4.4): the six
tables are read by their own indices — strings from table 0, names from
table 1, imports from table 2, properties from table 3, exports from
table 4, buffers from table 5 and embeds from table 6.  This definition
exists only to be compared with `read_cr2w_header` above. -/
def read_cr2w_header_spec (d : Bytes) : Option CR2WFileInfo := do
  let (magic, p0) ← readU32 d 0
  if magic ≠ 0x57325243 then none else do
  let (header, p1) ← readCR2WFileHeader d p0
  let (tables, p2) ← readTable readCR2WTable d p1 10
  let (strings, p3) ← read_strings d p2 (tables.getD 0 ⟨0, 0, 0⟩)
  let (names_table, p4) ← readTable readCR2WNameInfo d p3 (tables.getD 1 ⟨0, 0, 0⟩).item_count
  let (imports_table, p5) ← readTable readCR2WImportInfo d p4 (tables.getD 2 ⟨0, 0, 0⟩).item_count
  let (properties_table, p6) ← readTable readCR2WPropertyInfo d p5 (tables.getD 3 ⟨0, 0, 0⟩).item_count
  let (exports_table, p7) ← readTable readCR2WExportInfo d p6 (tables.getD 4 ⟨0, 0, 0⟩).item_count
  let (buffers_table, p8) ← readTable readCR2WBufferInfo d p7 (tables.getD 5 ⟨0, 0, 0⟩).item_count
  let (embeds_table, _p9) ← readTable readCR2WEmbeddedInfo d p8 (tables.getD 6 ⟨0, 0, 0⟩).item_count
  let names ← names_table.mapM (fun f => lookupA strings f.offset)
  let imports ← imports_table.mapM (fun info => do
    let cn ← names.get? info.class_name
    let dp ← lookupA strings info.offset
    some (⟨cn, dp, info.flags⟩ : Import))
  some ⟨header, names_table, imports_table, properties_table, exports_table,
        buffers_table, embeds_table, strings, names, imports⟩

/-! ## Archive index model (src/archive/file_segment.rs, file_entry.rs) -/

/-- `FileSegment`: `{offset, z_size, size}`. -/
structure FileSegment where
  offset : Nat
  z_size : Nat
  size : Nat
deriving DecidableEq

/-- `FileEntry` (56 bytes on disk). -/
structure FileEntry where
  name_hash_64 : Nat
  timestamp : Nat
  num_inline_buffer_segments : Nat
  segments_start : Nat
  segments_end : Nat
  resource_dependencies_start : Nat
  resource_dependencies_end : Nat
  sha1_hash : Bytes
deriving DecidableEq

/-- `ZipEntry` (src/archive/mod.rs): the wrapped in-memory entry.  The
optional resolved name is omitted — the packer always leaves it `None` and
no modelled operation reads it. -/
structure ZipEntry where
  hash : Nat
  entry : FileEntry
  segment : FileSegment
  buffers : List FileSegment
deriving DecidableEq

/-! ## LxrsFooter (src/archive/lxrs.rs) -/

/-- `LxrsFooter::MAGIC`. -/
def LXRS_MAGIC : Nat := 0x4C585253

/-- `LxrsFooter::write` (src/archive/lxrs.rs lines 24-46): emits the string
count and the version, builds the null-terminated payload, compresses it
and writes the compressed payload.  The `assert!(zsize <= size)` is
modelled as failure. -/
def lxrs_footer_write (c : Codec) (files : List Bytes) : Option Bytes :=
  let buffer := (files.map (fun f => f ++ [0])).flatten
  let z := compress c buffer 4
  if z.2 ≤ buffer.length then some (u32le files.length ++ u32le 1 ++ z.1) else none

/-- Loop of `LxrsFooter::from_reader` reading `count` null-terminated
strings: a failed read is silently skipped (`if let Ok`) and the loop
continues. -/
def readStringsCount (d : Bytes) : Nat → Nat → List Bytes
  | _pos, 0 => []
  | pos, k + 1 =>
    match readNTS d pos with
    | some (s, p2) => s :: readStringsCount d p2 k
    | none => readStringsCount d pos k

/-- `LxrsFooter::from_reader` (src/archive/lxrs.rs lines 52-101): expects
magic, version, uncompressed size, compressed size and count, then the
payload (Kraken-compressed when `size > zsize`, stored when equal,
invalid when smaller).  A negative `i32` count runs the loop zero times. -/
def lxrs_footer_from_reader (c : Codec) (d : Bytes) : Option (List Bytes) := do
  let (magic, p1) ← readU32 d 0
  if magic ≠ LXRS_MAGIC then none else do
  let (_version, p2) ← readU32 d p1
  let (size, p3) ← readU32 d p2
  let (zsize, p4) ← readU32 d p3
  let (cnt, p5) ← readU32 d p4
  let count := if cnt < 2 ^ 31 then cnt else 0
  if zsize < size then do
    let (compressed, _p6) ← readBytes d p5 zsize
    let output := c.kdecompress compressed size
    if output.length = size then some (readStringsCount output 0 count) else none
  else if size < zsize then none
  else some (readStringsCount d p5 count)

/-! ## Packer (src/archive/mod.rs) -/

/-- `get_aligned_file_extensions` (src/archive/mod.rs lines 476-479). -/
def get_aligned_file_extensions : List String :=
  [".bk2", ".bnk", ".opusinfo", ".wem", ".bin"]

/-- `get_uncompressed_file_extensions` (src/archive/mod.rs lines 482-493). -/
def get_uncompressed_file_extensions : List String :=
  [".bk2", ".bnk", ".opusinfo", ".wem", ".bin", ".dat", ".opuspak"]

/-- `pad_until_page` (src/archive/mod.rs lines 495-503): appends `0xD9`
bytes up to the next 4096-byte boundary (a full page when already
aligned). -/
def pad_until_page (out : Bytes) : Bytes :=
  let pos := out.length
  let diff := (pos / 4096 + 1) * 4096 - pos
  out ++ List.replicate diff 0xD9

/-- The per-file data `make_entry` computes before building the
`FileEntry`: the stream after the writes, the main segment, the sub-buffer
segments and the flags value. -/
structure EntryPayload where
  out : Bytes
  segment : FileSegment
  buffers : List FileSegment
  flags : Nat

/-- Sub-buffer loop of `make_entry`: reads `disk_size` bytes per
`buffers_table` row from the input (positioned after the main region),
appends them to the archive verbatim and records a segment with
`z_size = disk_size` and `size = mem_size`. -/
def readBuffersLoop (file : Bytes) : Nat → Bytes → List CR2WBufferInfo →
    Option (Bytes × List FileSegment)
  | _pos, out, [] => some (out, [])
  | pos, out, bi :: rest => do
    let (buf, pos2) ← readBytes file pos bi.disk_size
    let (out2, segs) ← readBuffersLoop file pos2 (out ++ buf) rest
    some (out2, (⟨out.length, bi.disk_size, bi.mem_size⟩ : FileSegment) :: segs)

/-- Branch body of `make_entry` (src/archive/mod.rs lines 285-390).  Cooked
path: the first `objects_end` bytes are compressed and written behind a
KARK frame (magic, uncompressed size), the recorded segment keeping
`z_size = zsize`; sub-buffers follow uncompressed; flags is
`buffers_table.len() - 1` when nonempty.  Raw path: the extension string
(as produced by `path.extension()`, i.e. without a leading dot) is tested
against the extension lists; aligned files are padded first, stored files
copied verbatim with `z_size = size`, all others compressed with
`z_size = zsize`.  The `assert!(zsize <= size)` calls are modelled as
failure. -/
def make_entry_payload (c : Codec) (ext : String) (fileBuffer : Bytes) (out : Bytes) :
    Option EntryPayload :=
  match read_cr2w_header fileBuffer with
  | some info =>
    (readBytes fileBuffer 0 info.header.objects_end).bind (fun rb =>
      let archive_offset := out.length
      let z := compress c rb.1 4
      if z.2 ≤ info.header.objects_end then
        let out1 := out ++ u32le KRAKEN_MAGIC ++ u32le info.header.objects_end ++ z.1
        (readBuffersLoop fileBuffer info.header.objects_end out1 info.buffers_table).map
          (fun r =>
            let flags := if info.buffers_table ≠ [] then info.buffers_table.length - 1 else 0
            ⟨r.1, ⟨archive_offset, z.2, info.header.objects_end⟩, r.2, flags⟩)
      else none)
  | none =>
    let out1 := if get_aligned_file_extensions.contains ext then pad_until_page out else out
    let offset := out1.length
    let size := fileBuffer.length
    if get_uncompressed_file_extensions.contains ext then
      some ⟨out1 ++ fileBuffer, ⟨offset, size, size⟩, [], 0⟩
    else
      let z := compress c fileBuffer 4
      if z.2 ≤ size then some ⟨out1 ++ z.1, ⟨offset, z.2, size⟩, [], 0⟩ else none

/-- `make_entry` (src/archive/mod.rs): runs the branch body, then builds
the `FileEntry` with the file's SHA-1 and zeroed segment/dependency
ranges. -/
def make_entry (c : Codec) (sha1 : Bytes → Bytes) (ext : String) (fileBuffer : Bytes)
    (hash : Nat) (out : Bytes) : Option (Bytes × ZipEntry) :=
  (make_entry_payload c ext fileBuffer out).map (fun r =>
    (r.out, ⟨hash, ⟨hash, 0, r.flags, 0, 0, 0, 0, sha1 fileBuffer⟩, r.segment, r.buffers⟩))

/-- One input file of the packer: its relative path (raw bytes, as hashed),
its lowercased extension without the dot (as `path.extension()` yields it)
and its contents. -/
structure FileInput where
  relpath : Bytes
  ext : String
  bytes : Bytes
deriving DecidableEq

/-- Stable insertion of `x` behind every element of no larger key;
`insertByKey` into a key-sorted list keeps equal keys in arrival order,
matching the stability of Rust's `sort_by_key`. -/
def insertByKey {α : Type} (key : α → Nat) (x : α) : List α → List α
  | [] => [x]
  | y :: ys => if key y ≤ key x then y :: insertByKey key x ys else x :: y :: ys

/-- `sort_by_key`: stable sort by a natural-number key. -/
def sortByKey {α : Type} (key : α → Nat) (l : List α) : List α :=
  l.foldl (fun acc x => insertByKey key x acc) []

/-- The per-file loop of `write_archive` (src/archive/mod.rs lines
240-246): each file is packed with `make_entry` and inserted into the
hash-keyed entry map, a later duplicate hash silently replacing the
earlier entry. -/
def pack_files (c : Codec) (sha1 : Bytes → Bytes) :
    Bytes → List (Nat × ZipEntry) → List (FileInput × Nat) →
    Option (Bytes × List (Nat × ZipEntry))
  | out, m, [] => some (out, m)
  | out, m, (f, h) :: rest => do
    let (out2, e) ← make_entry c sha1 f.ext f.bytes h out
    pack_files c sha1 out2 (insertReplace m h e) rest

/-- The segment-renumbering loop of `write_archive` (src/archive/mod.rs
lines 248-256), applied to the entry map in the order the `HashMap`
iterator yields it: a running counter assigns each entry
`[segments_start, segments_end)` covering `buffers.len() + 1` slots. -/
def renumberPairs (cnt : Nat) : List (Nat × ZipEntry) → List (Nat × ZipEntry)
  | [] => []
  | (k, e) :: rest =>
    let last := cnt + e.buffers.length + 1
    (k, ⟨e.hash,
         ⟨e.entry.name_hash_64, e.entry.timestamp, e.entry.num_inline_buffer_segments,
          cnt, last, e.entry.resource_dependencies_start,
          e.entry.resource_dependencies_end, e.entry.sha1_hash⟩,
         e.segment, e.buffers⟩) :: renumberPairs last rest

/-- The `FileEntry` records `write_index` (src/archive/mod.rs lines
894-939) serializes, in order: the map's values sorted ascending by
hash. -/
def write_index_entries (m : List (Nat × ZipEntry)) : List FileEntry :=
  (sortByKey ZipEntry.hash (m.map Prod.snd)).map ZipEntry.entry

/-- The `FileSegment` records `write_index` serializes, in order: per
sorted entry, its main segment followed by its sub-buffers. -/
def write_index_segments (m : List (Nat × ZipEntry)) : List FileSegment :=
  ((sortByKey ZipEntry.hash (m.map Prod.snd)).map (fun e => e.segment :: e.buffers)).flatten

/-- On-disk form of a `FileEntry` (src/archive/file_entry.rs `write`). -/
def file_entry_bytes (e : FileEntry) : Bytes :=
  u64le e.name_hash_64 ++ u64le e.timestamp ++ u32le e.num_inline_buffer_segments ++
  u32le e.segments_start ++ u32le e.segments_end ++
  u32le e.resource_dependencies_start ++ u32le e.resource_dependencies_end ++ e.sha1_hash

/-- On-disk form of a `FileSegment` (src/archive/file_segment.rs `write`). -/
def file_segment_bytes (s : FileSegment) : Bytes :=
  u64le s.offset ++ u32le s.z_size ++ u32le s.size

/-- `write_index` (src/archive/mod.rs lines 894-939): the serialized index
region — `u32 8`, `u32 body_len + 8`, `u64 crc` over the body, then the
body of counts, sorted entries and their segments (the dependency table is
empty in this revision). -/
def write_index_bytes (crc : Bytes → Nat) (m : List (Nat × ZipEntry)) : Bytes :=
  let file_segment_count := (m.map (fun p => p.2.buffers.length + 1)).sum
  let body := u32le m.length ++ u32le file_segment_count ++ u32le 0 ++
    ((write_index_entries m).map file_entry_bytes).flatten ++
    ((write_index_segments m).map file_segment_bytes).flatten
  u32le 8 ++ u32le (body.length + 8) ++ u64le (crc body) ++ body

/-- `Header::write` (src/archive/header.rs) for the finalized header:
magic, version 12, index position, index size, zero debug fields and the
file size — 40 bytes. -/
def header_bytes (index_position index_size filesize : Nat) : Bytes :=
  u32le 0x52344B53 ++ u32le 12 ++ u64le index_position ++ u32le index_size ++
  u64le 0 ++ u32le 0 ++ u64le filesize

/-- Seek-to-start-and-write: the patch of the finalized header (and the
custom-data length) over the already-written stream. -/
def overwrite (s new : Bytes) : Bytes := new ++ s.drop new.length

/-- Steps 7-9 of `write_archive`: pad to a page, write the index, pad to a
page again, then patch the finalized header and the custom-data length at
offset 0. -/
def assemble_tail (crc : Bytes → Nat) (out2 : Bytes) (m2 : List (Nat × ZipEntry))
    (custom_data_length : Nat) : Bytes :=
  let out3 := pad_until_page out2
  let tableoffset := out3.length
  let out4 := out3 ++ write_index_bytes crc m2
  let tablesize := out4.length - tableoffset
  let out5 := pad_until_page out4
  let filesize := out5.length
  overwrite out5 (header_bytes tableoffset tablesize filesize ++ u32le custom_data_length)

/-- Steps 3-4 of `write_archive`: the zeroed header region and reserved
padding (172 bytes), followed — when the custom-path list is nonempty — by
the LxrsFooter. -/
def stage_custom_footer (c : Codec) (hash_map : List Nat)
    (file_info : List (FileInput × Nat)) : Option Bytes :=
  let custom_paths := (file_info.filter (fun p => hash_map.contains p.2)).map
    (fun p => p.1.relpath)
  let out0 : Bytes := List.replicate 40 0 ++ List.replicate 132 0
  if custom_paths.isEmpty then some out0
  else (lxrs_footer_write c custom_paths).map (fun b => out0 ++ b)

/-- `write_archive` (src/archive/mod.rs lines 183-283).  Parameters model
the external collaborators: the Kraken codec `c`, the CRC-64 primitive
`crc`, the SHA-1 primitive `sha1`, the FNV-1a/64 primitive `fnv`, and the
caller's hash dictionary `hash_map` (only key membership is used).  `iter`
models the unspecified iteration order of the entry `HashMap` in the
renumbering loop; faithfulness requires only that it permute the map.
Returns the archive bytes and the final entry map. -/
def write_archive (c : Codec) (crc : Bytes → Nat) (sha1 : Bytes → Bytes)
    (fnv : Bytes → Nat) (hash_map : List Nat) (files : List FileInput)
    (iter : List (Nat × ZipEntry) → List (Nat × ZipEntry)) :
    Option (Bytes × List (Nat × ZipEntry)) := do
  let file_info := sortByKey (fun p => p.2) (files.map (fun f => (f, fnv f.relpath)))
  let out1 ← stage_custom_footer c hash_map file_info
  let custom_data_length := out1.length - 172
  let (out2, m) ← pack_files c sha1 out1 [] file_info
  let m2 := renumberPairs 0 (iter m)
  some (assemble_tail crc out2 m2 custom_data_length, m2)

/-- The `FileEntry` list of the index of a (possibly failed) `write_archive`
run; a failed run contributes the empty list. -/
def indexEntriesOf (o : Option (Bytes × List (Nat × ZipEntry))) : List FileEntry :=
  o.elim [] (fun p => write_index_entries p.2)

/-! ## Extractor (src/archive/mod.rs) -/

/-- `decompress_segment` (src/archive/mod.rs lines 441-473): at the
segment's offset, a leading KARK magic selects the compressed path — read
the u32 size override, read `z_size - 8` compressed bytes, decompress and
check the decompressed length (`assert_eq`) — while anything else falls
back to copying `z_size` bytes verbatim. -/
def decompress_segment (c : Codec) (d : Bytes) (seg : FileSegment) : Option Bytes := do
  let (magic, p1) ← readU32 d seg.offset
  if magic = KRAKEN_MAGIC then do
    let (size_in_header, p2) ← readU32 d p1
    let size := if size_in_header ≠ seg.size then size_in_header else seg.size
    let (compressed, _p3) ← readBytes d p2 (seg.z_size - 8)
    let output := c.kdecompress compressed size
    if output.length = size then some output else none
  else
    (readBytes d seg.offset seg.z_size).map (fun r => r.1)

/-- `ZipArchive::extract_segments` (src/archive/mod.rs lines 699-720): the
main segment is copied verbatim when `size == z_size` and decompressed
otherwise; every sub-buffer segment is copied verbatim. -/
def extract_segments (c : Codec) (d : Bytes) (e : ZipEntry) : Option Bytes := do
  let main ← if e.segment.size = e.segment.z_size then
      (readBytes d e.segment.offset e.segment.z_size).map (fun r => r.1)
    else decompress_segment c d e.segment
  let bufs ← e.buffers.mapM (fun s => (readBytes d s.offset s.z_size).map (fun r => r.1))
  some (main ++ bufs.flatten)

/-- The half-open slice `[a, b)` of a list, as a segment range designates
rows of the segment table. -/
def listSlice {α : Type} (l : List α) (a b : Nat) : List α := (l.take b).drop a

/-- Last file of a pack sequence carrying a given hash (the "later-packed"
file). -/
def lastWith (fs : List (FileInput × Nat)) (h : Nat) : Option FileInput :=
  (fs.reverse.find? (fun p => p.2 == h)).map (fun p => p.1)

/-! ## Concrete fixtures

Conforming codec instances and concrete input files used to evaluate the
pipeline.  Each codec satisfies the call contract (round-trip and
no-expansion; proved below). -/

/-- Zero CRC-64 stand-in (the CRC value never feeds back into behaviour). -/
def zeroCrc : Bytes → Nat := fun _ => 0

/-- Constant SHA-1 stand-in. -/
def sha20 : Bytes → Bytes := fun _ => List.replicate 20 0

/-- A conforming codec that compresses the 300-byte run of `7` to the
single byte `1` and stores everything else. -/
def cRaw : Codec :=
  ⟨fun x _ => if x = List.replicate 300 7 then [1] else x,
   fun y n => if y = [1] ∧ n = 300 then List.replicate 300 7 else y⟩

/-- A 300-byte CR2W file: magic, fixed header with `objects_end = 300`, an
empty string table at offset 160, nine further empty tables, and filler up
to `objects_end`. -/
def cr2wFileA : Bytes :=
  u32le 0x57325243 ++
  u32le 195 ++ u32le 0 ++ u64le 0 ++ u32le 0 ++ u32le 300 ++ u32le 300 ++ u32le 0 ++ u32le 0 ++
  u32le 160 ++ u32le 0 ++ u32le 0 ++
  List.replicate 108 0 ++
  List.replicate 140 0xAB

/-- A conforming codec that compresses `cr2wFileA` to the single byte `2`
and stores everything else. -/
def cCooked : Codec :=
  ⟨fun x _ => if x = cr2wFileA then [2] else x,
   fun y n => if y = [2] ∧ n = 300 then cr2wFileA else y⟩

/-- A 184-byte CR2W file whose table records differ: table 3 (properties)
is empty while table 4 (exports) declares one record, present as the
trailing 24 bytes. -/
def cr2wFileB : Bytes :=
  u32le 0x57325243 ++
  u32le 195 ++ u32le 0 ++ u64le 0 ++ u32le 0 ++ u32le 160 ++ u32le 184 ++ u32le 0 ++ u32le 0 ++
  u32le 160 ++ u32le 0 ++ u32le 0 ++
  List.replicate 36 0 ++
  u32le 0 ++ u32le 1 ++ u32le 0 ++
  List.replicate 60 0 ++
  u16le 5 ++ u16le 6 ++ u32le 7 ++ u32le 8 ++ u32le 9 ++ u32le 10 ++ u32le 11

/-- C1 fixture: a compressible 300-byte `.json` file (raw path). -/
def c1File : FileInput := ⟨[97], "json", List.replicate 300 7⟩

/-- C2 fixtures: two small raw files. -/
def c2a : FileInput := ⟨[97], "xbm", [1, 2, 3]⟩

def c2b : FileInput := ⟨[98], "xbm", [9, 9]⟩

/-- C2 hash assignment: path `[97]` hashes to 1, everything else to 2. -/
def c2fnv : Bytes → Nat := fun p => if p = [97] then 1 else 2

/-- C10 fixture: two files with the same hash 42. -/
def c10fs : List (FileInput × Nat) :=
  [(⟨[97], "xbm", [1, 2, 3]⟩, 42), (⟨[98], "xbm", [4, 5, 6]⟩, 42)]

/-- The single entry the C10 pack run retains for hash 42 (built from the
later file, with `sha1` instantiated to the identity). -/
def c10e : ZipEntry := ⟨42, ⟨42, 0, 0, 0, 0, 0, 0, [4, 5, 6]⟩, ⟨3, 3, 3⟩, []⟩

/-! ## Codec conformance

The fixture codecs satisfy the call contract the spec states for the
external Kraken codec: decompression inverts compression at the recorded
uncompressed length, and compression never expands. -/

theorem cRaw_roundtrip (x : Bytes) (level : Nat) :
    cRaw.kdecompress (cRaw.kcompress x level) x.length = x := by
  simp only [cRaw]
  by_cases hx : x = List.replicate 300 7
  · simp [hx]
  · rw [if_neg hx, if_neg]
    rintro ⟨h1, h2⟩
    subst h1
    simp at h2

theorem cRaw_no_expansion (x : Bytes) (level : Nat) :
    (cRaw.kcompress x level).length ≤ x.length := by
  simp only [cRaw]
  by_cases hx : x = List.replicate 300 7
  · simp [hx]
  · rw [if_neg hx]

theorem cCooked_roundtrip (x : Bytes) (level : Nat) :
    cCooked.kdecompress (cCooked.kcompress x level) x.length = x := by
  simp only [cCooked]
  by_cases hx : x = cr2wFileA
  · subst hx
    have hlen : cr2wFileA.length = 300 := by decide
    simp [hlen]
  · rw [if_neg hx, if_neg]
    rintro ⟨h1, h2⟩
    subst h1
    simp at h2

theorem cCooked_no_expansion (x : Bytes) (level : Nat) :
    (cCooked.kcompress x level).length ≤ x.length := by
  simp only [cCooked]
  by_cases hx : x = cr2wFileA
  · subst hx; decide
  · rw [if_neg hx]

/-! ## Claim theorems -/

/-- C1: the pack-then-extract round trip fails on the code as written.  A
raw-path (non-cooked) 300-byte file that the conforming codec `cRaw`
compresses is packed by `write_archive` without a KARK frame, so
extraction through `extract_segments`/`decompress_segment` finds no KARK
magic at the segment offset, falls back to a verbatim copy of the
`z_size = 1` compressed byte, and returns `[1]` instead of the original
300 file bytes. -/
theorem c1_pack_then_extract_raw_fails :
    ((write_archive cRaw zeroCrc sha20 (fun _ => 42) [] [c1File] id).bind
      (fun p => (lookupA p.2 42).bind (fun e => extract_segments cRaw p.1 e)))
    = some [1]
    ∧ (some [1] : Option Bytes) ≠ some c1File.bytes := by
  constructor
  · decide
  · decide

/-- C2: segment ranges in a freshly written archive need not designate the
owning entry's segments.  With two raw files of hashes 1 and 2 and the
entry map iterated in reverse order (`HashMap` iteration order is
unspecified), the entry with hash 1 receives the range `[1, 2)`, but row 1
of the written segment table is the other entry's segment `(175, 2, 2)`,
not its own main segment `(172, 3, 3)`. -/
theorem c2_segment_range_misassigned :
    ((write_archive cRaw zeroCrc sha20 c2fnv [] [c2a, c2b] List.reverse).bind
      (fun p => (lookupA p.2 1).map (fun e =>
        (listSlice (write_index_segments p.2) e.entry.segments_start e.entry.segments_end,
         e.segment :: e.buffers))))
    = some ([⟨175, 2, 2⟩], [⟨172, 3, 3⟩])
    ∧ ([(⟨175, 2, 2⟩ : FileSegment)] : List FileSegment) ≠ [⟨172, 3, 3⟩] := by
  constructor
  · decide
  · decide

/-- C3: for a cooked-resource input the packer records the main segment
with `z_size` equal to the bare Kraken payload length `zlen` (here 1), not
`zlen + 8` as the claim requires for consistency with the extractor
reading `z_size - 8` compressed bytes after the KARK frame header. -/
theorem c3_kark_z_size_excludes_frame_header :
    (compress cCooked cr2wFileA 4).2 = 1
    ∧ ((make_entry cCooked sha20 "mesh" cr2wFileA 5 (List.replicate 172 0)).map
        (fun p => p.2.segment.z_size)) = some 1
    ∧ (1 : Nat) ≠ 1 + 8 := by
  refine ⟨by decide, by decide, by decide⟩

/-- C4: `read_cr2w_header` reads properties, exports, buffers and embeds
all with table 3's item count instead of tables 3, 4, 5 and 6.  On a CR2W
file whose table 3 is empty while table 4 declares one export record, the
code parse yields no exports while the spec-worded reader
(`read_cr2w_header_spec`) yields the declared record. -/
theorem c4_tables_read_from_table3 :
    ((read_cr2w_header cr2wFileB).map (fun i =>
      (i.properties_table.length, i.exports_table.length,
       i.buffers_table.length, i.embeds_table.length))) = some (0, 0, 0, 0)
    ∧ ((read_cr2w_header_spec cr2wFileB).map (fun i => i.exports_table))
      = some [⟨5, 6, 7, 8, 9, 10, 11⟩]
    ∧ ((read_cr2w_header_spec cr2wFileB).map (fun i =>
      (i.buffers_table.length, i.embeds_table.length))) = some (0, 0) := by
  refine ⟨by decide, by decide, by decide⟩

/-- C5: the LxrsFooter the packer writes is not decodable by
`LxrsFooter::from_reader`.  `write` emits only the count, the version and
the (here stored) payload — no magic and no size fields — so `from_reader`
reads the count where it expects the magic and rejects the footer. -/
theorem c5_lxrs_footer_not_decodable :
    lxrs_footer_write cRaw [[97]] = some [1, 0, 0, 0, 1, 0, 0, 0, 97, 0]
    ∧ lxrs_footer_from_reader cRaw [1, 0, 0, 0, 1, 0, 0, 0, 97, 0] = none := by
  refine ⟨by decide, by decide⟩

/-- C6: the extension classification never fires.  The extension lists
hold dotted strings while `path.extension()` yields the extension without
a dot, so a 300-byte `.bin` file — in both the aligned and the stored set
per the claim — is neither padded to a 4096-byte boundary (its offset is
172) nor stored verbatim: it is Kraken-compressed with
`z_size = 1 ≠ 300 = size`. -/
theorem c6_extension_sets_never_match :
    ((make_entry cRaw sha20 "bin" (List.replicate 300 7) 5 (List.replicate 172 0)).map
      (fun p => (p.2.segment.offset, p.2.segment.z_size, p.2.segment.size)))
    = some (172, 1, 300)
    ∧ (1 : Nat) ≠ 300 ∧ (172 : Nat) % 4096 ≠ 0 := by
  refine ⟨by decide, by decide, by decide⟩

/-- C9: the compression adapter bypasses the codec below 256 bytes —
independently of the codec, the destination is left holding exactly the
source bytes and the source length is returned — and calls the codec at
the given level from 256 bytes on. -/
theorem c9_compress_threshold (c : Codec) (src : Bytes) (level : Nat) :
    (src.length < 256 → ∀ c2 : Codec, compress c2 src level = (src, src.length))
    ∧ (256 ≤ src.length →
        compress c src level = (c.kcompress src level, (c.kcompress src level).length)) := by
  constructor
  · intro h c2
    unfold compress
    rw [if_pos h]
  · intro h
    unfold compress
    rw [if_neg (by omega)]

/-- Witness for C9 at 255 and 256 bytes, the boundary the spec names. -/
theorem c9_compress_threshold_witness :
    ((List.replicate 255 (0 : Nat)).length < 256
     ∧ compress cRaw (List.replicate 255 0) 4 = (List.replicate 255 0, 255))
    ∧ (256 ≤ (List.replicate 256 (0 : Nat)).length
     ∧ compress cRaw (List.replicate 256 0) 4
       = (cRaw.kcompress (List.replicate 256 0) 4,
          (cRaw.kcompress (List.replicate 256 0) 4).length)) :=
  ⟨⟨by decide, by
      have h := (c9_compress_threshold cRaw (List.replicate 255 0) 4).1 (by decide) cRaw
      simpa using h⟩,
   ⟨by decide, (c9_compress_threshold cRaw (List.replicate 256 0) 4).2 (by decide)⟩⟩

/-- `wrapI32` is the identity on the `i32` range. -/
theorem wrapI32_eq_self (z : Int) (h1 : -(2 ^ 31) ≤ z) (h2 : z < 2 ^ 31) :
    wrapI32 z = z := by
  unfold wrapI32
  rw [Int.emod_eq_of_lt (by omega) (by omega)]
  omega

/-- C8 (amended): on every input whose true worst-case value fits in an
`i32`, both estimators compute `n + 274 * ceil(n / 262144)` exactly; the
amendment excludes the inputs whose result overflows the functions'
32-bit return type. -/
theorem c8_estimator_law_no_overflow (n : Nat)
    (h : n + 274 * ceilDiv n 262144 < 2 ^ 31) :
    get_compressed_buffer_size_needed n = ((n + 274 * ceilDiv n 262144 : Nat) : Int)
    ∧ get_compressed_buffer_size_needed_kraken (n : Int)
      = ((n + 274 * ceilDiv n 262144 : Nat) : Int) := by
  have hq : ceilDiv n 262144 = (n + 262143) / 262144 := by
    unfold ceilDiv
    norm_num
  rw [hq] at h ⊢
  have hbound : n + 262143 < 2 ^ 31 := by omega
  constructor
  · simp only [get_compressed_buffer_size_needed]
    have ha : wrap64 (n + 0x3ffff) = n + 262143 := by
      unfold wrap64
      rw [Nat.mod_eq_of_lt (by omega)]
    rw [ha]
    have hb : (n + 262143) >>> 0x3f &&& 0x3ffff = 0 := by
      rw [Nat.shiftRight_eq_div_pow, Nat.div_eq_of_lt (by omega)]
      rfl
    rw [hb]
    have hc : wrap64 (n + 262143 + 0) = n + 262143 := by
      unfold wrap64
      rw [Nat.add_zero, Nat.mod_eq_of_lt (by omega)]
    rw [hc]
    have hd : (n + 262143) >>> 0x12 = (n + 262143) / 262144 := by
      rw [Nat.shiftRight_eq_div_pow]
    rw [hd]
    have he : wrap64 ((n + 262143) / 262144 * 0x112) = (n + 262143) / 262144 * 274 := by
      unfold wrap64
      rw [Nat.mod_eq_of_lt (by omega)]
    rw [he]
    have hf : wrap64 ((n + 262143) / 262144 * 274 + n)
        = (n + 262143) / 262144 * 274 + n := by
      unfold wrap64
      rw [Nat.mod_eq_of_lt (by omega)]
    rw [hf]
    simp only [toI32]
    rw [Nat.mod_eq_of_lt (by omega), if_pos (by omega)]
    push_cast
    ring
  · unfold get_compressed_buffer_size_needed_kraken
    have e1 : (n : Int) + 0x3FFFF = ((n + 262143 : Nat) : Int) := by
      push_cast
      norm_num
    rw [e1, wrapI32_eq_self ((n + 262143 : Nat) : Int) (by omega) (by omega)]
    have e2 : Int.tdiv ((n + 262143 : Nat) : Int) 0x40000
        = (((n + 262143) / 262144 : Nat) : Int) := by
      rw [show (0x40000 : Int) = ((262144 : Nat) : Int) by norm_num]
      exact (Int.ofNat_tdiv (n + 262143) 262144).symm
    rw [e2]
    have e3 : (274 : Int) * (((n + 262143) / 262144 : Nat) : Int)
        = ((274 * ((n + 262143) / 262144) : Nat) : Int) := by
      push_cast
      ring
    rw [e3, wrapI32_eq_self ((274 * ((n + 262143) / 262144) : Nat) : Int)
      (by omega) (by omega)]
    have e4 : (n : Int) + ((274 * ((n + 262143) / 262144) : Nat) : Int)
        = ((n + 274 * ((n + 262143) / 262144) : Nat) : Int) := by
      push_cast
      ring
    rw [e4, wrapI32_eq_self ((n + 274 * ((n + 262143) / 262144) : Nat) : Int)
      (by omega) (by omega)]

/-- C8 (counterexample): at `n = 2^31 - 1` the shift-form estimator wraps
negative in its `i32` result and differs both from the claimed value
`n + 274 * ceil(n / 262144)` and from the division-form estimator. -/
theorem c8_estimator_overflow_cex :
    get_compressed_buffer_size_needed 2147483647
      ≠ ((2147483647 + 274 * ceilDiv 2147483647 262144 : Nat) : Int)
    ∧ get_compressed_buffer_size_needed 2147483647
      ≠ get_compressed_buffer_size_needed_kraken (2147483647 : Int) := by
  refine ⟨by decide, by decide⟩

/-- Witness for C8 at `n = 1000000`, inside the amended range. -/
theorem c8_estimator_law_no_overflow_witness :
    1000000 + 274 * ceilDiv 1000000 262144 < 2 ^ 31
    ∧ get_compressed_buffer_size_needed 1000000
      = ((1000000 + 274 * ceilDiv 1000000 262144 : Nat) : Int)
    ∧ get_compressed_buffer_size_needed_kraken (1000000 : Int)
      = ((1000000 + 274 * ceilDiv 1000000 262144 : Nat) : Int) :=
  ⟨by decide, (c8_estimator_law_no_overflow 1000000 (by decide)).1,
   (c8_estimator_law_no_overflow 1000000 (by decide)).2⟩

/-! ## Sorting and association-list lemmas -/

theorem mem_insertByKey {α : Type} (key : α → Nat) (x a : α) (l : List α) :
    a ∈ insertByKey key x l ↔ a = x ∨ a ∈ l := by
  induction l with
  | nil => simp [insertByKey]
  | cons y ys ih =>
    unfold insertByKey
    by_cases hle : key y ≤ key x
    · rw [if_pos hle]
      simp only [List.mem_cons, ih]
      tauto
    · rw [if_neg hle]
      simp only [List.mem_cons]

theorem pairwise_insertByKey {α : Type} (key : α → Nat) (x : α) (l : List α)
    (h : l.Pairwise (fun a b => key a ≤ key b)) :
    (insertByKey key x l).Pairwise (fun a b => key a ≤ key b) := by
  induction l with
  | nil => simp [insertByKey]
  | cons y ys ih =>
    rw [List.pairwise_cons] at h
    unfold insertByKey
    by_cases hle : key y ≤ key x
    · rw [if_pos hle, List.pairwise_cons]
      refine ⟨?_, ih h.2⟩
      intro b hb
      rcases (mem_insertByKey key x b ys).mp hb with hbx | hbys
      · rw [hbx]
        exact hle
      · exact h.1 b hbys
    · rw [if_neg hle, List.pairwise_cons]
      refine ⟨?_, List.pairwise_cons.mpr h⟩
      intro b hb
      rcases List.mem_cons.mp hb with hby | hbys
      · rw [hby]
        omega
      · have := h.1 b hbys
        omega

theorem pairwise_sortByKey_go {α : Type} (key : α → Nat) (l : List α) :
    ∀ acc : List α, acc.Pairwise (fun a b => key a ≤ key b) →
    (l.foldl (fun a x => insertByKey key x a) acc).Pairwise (fun a b => key a ≤ key b) := by
  induction l with
  | nil => intro acc hacc; simpa using hacc
  | cons y ys ih => intro acc hacc; exact ih _ (pairwise_insertByKey key y acc hacc)

theorem pairwise_sortByKey {α : Type} (key : α → Nat) (l : List α) :
    (sortByKey key l).Pairwise (fun a b => key a ≤ key b) :=
  pairwise_sortByKey_go key l [] (by simp)

theorem mem_sortByKey_go {α : Type} (key : α → Nat) (l : List α) :
    ∀ (acc : List α) (a : α),
    a ∈ l.foldl (fun acc2 x => insertByKey key x acc2) acc ↔ a ∈ acc ∨ a ∈ l := by
  induction l with
  | nil => intro acc a; simp
  | cons y ys ih =>
    intro acc a
    simp only [List.foldl_cons, ih, mem_insertByKey, List.mem_cons]
    tauto

theorem mem_sortByKey {α : Type} (key : α → Nat) (l : List α) (a : α) :
    a ∈ sortByKey key l ↔ a ∈ l := by
  unfold sortByKey
  rw [mem_sortByKey_go]
  simp

theorem mem_pair_insertReplace {α : Type} :
    ∀ (m : List (Nat × α)) (k : Nat) (v : α) (p : Nat × α),
    p ∈ insertReplace m k v → p ∈ m ∨ p = (k, v) := by
  intro m
  induction m with
  | nil => intro k v p hp; simp [insertReplace] at hp; simp [hp]
  | cons q rest ih =>
    intro k v p hp
    obtain ⟨k2, v2⟩ := q
    unfold insertReplace at hp
    by_cases hk : k2 = k
    · rw [if_pos hk] at hp
      rcases List.mem_cons.mp hp with h1 | h2
      · right; exact h1
      · left; exact List.mem_cons_of_mem _ h2
    · rw [if_neg hk] at hp
      rcases List.mem_cons.mp hp with h1 | h2
      · left; rw [h1]; exact List.mem_cons_self _ _
      · rcases ih k v p h2 with h3 | h4
        · left; exact List.mem_cons_of_mem _ h3
        · right; exact h4

theorem lookupA_insertReplace_self {α : Type} :
    ∀ (m : List (Nat × α)) (k : Nat) (v : α),
    lookupA (insertReplace m k v) k = some v := by
  intro m
  induction m with
  | nil => intro k v; simp [insertReplace, lookupA]
  | cons q rest ih =>
    intro k v
    obtain ⟨k2, v2⟩ := q
    unfold insertReplace
    by_cases hk : k2 = k
    · rw [if_pos hk]
      simp [lookupA]
    · rw [if_neg hk]
      unfold lookupA
      rw [List.find?_cons_of_neg]
      · exact ih k v
      · simpa using hk

theorem lookupA_insertReplace_ne {α : Type} :
    ∀ (m : List (Nat × α)) (k k2 : Nat) (v : α), k2 ≠ k →
    lookupA (insertReplace m k v) k2 = lookupA m k2 := by
  intro m
  induction m with
  | nil =>
    intro k k2 v hne
    unfold insertReplace lookupA
    rw [List.find?_cons_of_neg _ (by simpa using Ne.symm hne)]
  | cons q rest ih =>
    intro k k2 v hne
    obtain ⟨k3, v3⟩ := q
    unfold insertReplace
    by_cases hk : k3 = k
    · rw [if_pos hk]
      unfold lookupA
      rw [List.find?_cons_of_neg _ (by simpa using Ne.symm hne),
          List.find?_cons_of_neg _ (by simp only [beq_iff_eq]; rw [hk]; exact Ne.symm hne)]
    · rw [if_neg hk]
      by_cases hk2 : k3 = k2
      · unfold lookupA
        rw [List.find?_cons_of_pos _ (by simpa using hk2),
            List.find?_cons_of_pos _ (by simpa using hk2)]
      · unfold lookupA
        rw [List.find?_cons_of_neg _ (by simpa using hk2),
            List.find?_cons_of_neg _ (by simpa using hk2)]
        exact ih k k2 v hne

theorem keys_insertReplace {α : Type} :
    ∀ (m : List (Nat × α)) (k : Nat) (v : α) (k2 : Nat),
    k2 ∈ (insertReplace m k v).map Prod.fst ↔ k2 = k ∨ k2 ∈ m.map Prod.fst := by
  intro m
  induction m with
  | nil => intro k v k2; simp [insertReplace]
  | cons q rest ih =>
    intro k v k2
    obtain ⟨k3, v3⟩ := q
    unfold insertReplace
    by_cases hk : k3 = k
    · rw [if_pos hk]
      simp [hk]
    · rw [if_neg hk]
      simp only [List.map_cons, List.mem_cons, ih]
      tauto

theorem nodup_keys_insertReplace {α : Type} :
    ∀ (m : List (Nat × α)) (k : Nat) (v : α),
    (m.map Prod.fst).Nodup → ((insertReplace m k v).map Prod.fst).Nodup := by
  intro m
  induction m with
  | nil => intro k v _; simp [insertReplace]
  | cons q rest ih =>
    intro k v hnd
    obtain ⟨k3, v3⟩ := q
    simp only [List.map_cons, List.nodup_cons] at hnd
    unfold insertReplace
    by_cases hk : k3 = k
    · rw [if_pos hk]
      simp only [List.map_cons, List.nodup_cons]
      exact ⟨by rw [← hk]; exact hnd.1, hnd.2⟩
    · rw [if_neg hk]
      simp only [List.map_cons, List.nodup_cons]
      refine ⟨?_, ih k v hnd.2⟩
      rw [keys_insertReplace]
      rintro (h1 | h2)
      · exact hk h1
      · exact hnd.1 h2

/-! ## Packer loop invariants -/

theorem make_entry_fields (c : Codec) (sha1 : Bytes → Bytes) (ext : String)
    (fb : Bytes) (hash : Nat) (out out2 : Bytes) (e : ZipEntry)
    (h : make_entry c sha1 ext fb hash out = some (out2, e)) :
    e.hash = hash ∧ e.entry.name_hash_64 = hash ∧ e.entry.sha1_hash = sha1 fb := by
  unfold make_entry at h
  rcases hp : make_entry_payload c ext fb out with _ | r
  · rw [hp] at h
    simp at h
  · rw [hp, Option.map_some'] at h
    injection h with h
    have h2 : e = ⟨hash, ⟨hash, 0, r.flags, 0, 0, 0, 0, sha1 fb⟩, r.segment, r.buffers⟩ :=
      (congrArg Prod.snd h).symm
    rw [h2]
    exact ⟨rfl, rfl, rfl⟩

theorem pack_files_good (c : Codec) (sha1 : Bytes → Bytes) :
    ∀ (fs : List (FileInput × Nat)) (out0 : Bytes) (m0 : List (Nat × ZipEntry))
      (res : Bytes × List (Nat × ZipEntry)),
    (∀ p ∈ m0, p.2.hash = p.1 ∧ p.2.entry.name_hash_64 = p.1) →
    pack_files c sha1 out0 m0 fs = some res →
    ∀ p ∈ res.2, p.2.hash = p.1 ∧ p.2.entry.name_hash_64 = p.1 := by
  intro fs
  induction fs with
  | nil =>
    intro out0 m0 res h0 hres
    unfold pack_files at hres
    injection hres with hres
    rw [← hres]
    exact h0
  | cons fh rest ih =>
    intro out0 m0 res h0 hres
    obtain ⟨f, hsh⟩ := fh
    simp only [pack_files] at hres
    rcases hme : make_entry c sha1 f.ext f.bytes hsh out0 with _ | oe
    · rw [hme] at hres
      exact Option.noConfusion hres
    · obtain ⟨o2, e⟩ := oe
      rw [hme] at hres
      refine ih o2 _ res ?_ hres
      intro p hp
      rcases mem_pair_insertReplace m0 hsh e p hp with h1 | h2
      · exact h0 p h1
      · obtain ⟨g1, g2, _⟩ := make_entry_fields c sha1 f.ext f.bytes hsh out0 o2 e hme
        rw [h2]
        exact ⟨g1, g2⟩

theorem pack_files_keys (c : Codec) (sha1 : Bytes → Bytes) :
    ∀ (fs : List (FileInput × Nat)) (out0 : Bytes) (m0 : List (Nat × ZipEntry))
      (res : Bytes × List (Nat × ZipEntry)),
    pack_files c sha1 out0 m0 fs = some res →
    ∀ k : Nat, k ∈ res.2.map Prod.fst ↔ k ∈ m0.map Prod.fst ∨ k ∈ fs.map (fun p => p.2) := by
  intro fs
  induction fs with
  | nil =>
    intro out0 m0 res hres k
    unfold pack_files at hres
    injection hres with hres
    rw [← hres]
    simp
  | cons fh rest ih =>
    intro out0 m0 res hres k
    obtain ⟨f, hsh⟩ := fh
    simp only [pack_files] at hres
    rcases hme : make_entry c sha1 f.ext f.bytes hsh out0 with _ | oe
    · rw [hme] at hres
      exact Option.noConfusion hres
    · obtain ⟨o2, e⟩ := oe
      rw [hme] at hres
      rw [ih o2 _ res hres k, keys_insertReplace]
      simp only [List.map_cons, List.mem_cons]
      tauto

theorem pack_files_nodup_keys (c : Codec) (sha1 : Bytes → Bytes) :
    ∀ (fs : List (FileInput × Nat)) (out0 : Bytes) (m0 : List (Nat × ZipEntry))
      (res : Bytes × List (Nat × ZipEntry)),
    (m0.map Prod.fst).Nodup →
    pack_files c sha1 out0 m0 fs = some res →
    (res.2.map Prod.fst).Nodup := by
  intro fs
  induction fs with
  | nil =>
    intro out0 m0 res h0 hres
    unfold pack_files at hres
    injection hres with hres
    rw [← hres]
    exact h0
  | cons fh rest ih =>
    intro out0 m0 res h0 hres
    obtain ⟨f, hsh⟩ := fh
    simp only [pack_files] at hres
    rcases hme : make_entry c sha1 f.ext f.bytes hsh out0 with _ | oe
    · rw [hme] at hres
      exact Option.noConfusion hres
    · obtain ⟨o2, e⟩ := oe
      rw [hme] at hres
      exact ih o2 _ res (nodup_keys_insertReplace m0 hsh e h0) hres

theorem pack_files_lookup (c : Codec) (sha1 : Bytes → Bytes) :
    ∀ (fs : List (FileInput × Nat)) (out0 : Bytes) (m0 : List (Nat × ZipEntry))
      (res : Bytes × List (Nat × ZipEntry)),
    pack_files c sha1 out0 m0 fs = some res →
    ∀ h : Nat,
      (h ∈ fs.map (fun p => p.2) →
        (lookupA res.2 h).map (fun e => e.entry.sha1_hash)
          = (lastWith fs h).map (fun f => sha1 f.bytes))
      ∧ (h ∉ fs.map (fun p => p.2) → lookupA res.2 h = lookupA m0 h) := by
  intro fs
  induction fs with
  | nil =>
    intro out0 m0 res hres h
    unfold pack_files at hres
    injection hres with hres
    rw [← hres]
    constructor
    · intro hmem
      simp at hmem
    · intro _
      rfl
  | cons fh rest ih =>
    intro out0 m0 res hres h
    obtain ⟨f, k⟩ := fh
    simp only [pack_files] at hres
    rcases hme : make_entry c sha1 f.ext f.bytes k out0 with _ | ⟨o2, e⟩
    · rw [hme] at hres
      exact Option.noConfusion hres
    rw [hme] at hres
    have IH := ih o2 (insertReplace m0 k e) res hres
    constructor
    · intro hmem
      by_cases hr : h ∈ rest.map (fun p => p.2)
      · rw [(IH h).1 hr]
        have hsame : lastWith ((f, k) :: rest) h = lastWith rest h := by
          unfold lastWith
          rw [List.reverse_cons, List.find?_append]
          rcases hfind : rest.reverse.find? (fun p => p.2 == h) with _ | x
          · exfalso
            rw [List.find?_eq_none] at hfind
            obtain ⟨p, hp, hph⟩ := List.mem_map.mp hr
            exact hfind p (List.mem_reverse.mpr hp) (by simpa using hph)
          · rw [hfind]
            rfl
        rw [hsame]
      · have hk : h = k := by
          simp only [List.map_cons, List.mem_cons] at hmem
          tauto
        subst hk
        rw [(IH h).2 hr, lookupA_insertReplace_self]
        obtain ⟨_, _, g3⟩ := make_entry_fields c sha1 f.ext f.bytes h out0 o2 e hme
        have hlast : lastWith ((f, h) :: rest) h = some f := by
          unfold lastWith
          rw [List.reverse_cons, List.find?_append]
          have hnone : rest.reverse.find? (fun p => p.2 == h) = none := by
            rw [List.find?_eq_none]
            intro x hx
            simp only [beq_iff_eq]
            intro hxk
            exact hr (List.mem_map.mpr ⟨x, List.mem_reverse.mp hx, hxk⟩)
          rw [hnone, Option.none_or]
          simp [List.find?]
        rw [hlast, Option.map_some', Option.map_some', g3]
    · intro hmem
      simp only [List.map_cons, List.mem_cons, not_or] at hmem
      rw [(IH h).2 hmem.2, lookupA_insertReplace_ne m0 k h e hmem.1]

theorem mem_renumberPairs :
    ∀ (l : List (Nat × ZipEntry)) (cnt : Nat) (p : Nat × ZipEntry),
    p ∈ renumberPairs cnt l →
    ∃ q ∈ l, p.1 = q.1 ∧ p.2.hash = q.2.hash
      ∧ p.2.entry.name_hash_64 = q.2.entry.name_hash_64 := by
  intro l
  induction l with
  | nil =>
    intro cnt p hp
    simp [renumberPairs] at hp
  | cons ke rest ih =>
    intro cnt p hp
    obtain ⟨k, e⟩ := ke
    simp only [renumberPairs] at hp
    rcases List.mem_cons.mp hp with h1 | h2
    · refine ⟨(k, e), List.mem_cons_self _ _, ?_⟩
      rw [h1]
      exact ⟨rfl, rfl, rfl⟩
    · obtain ⟨q, hq, hh⟩ := ih _ p h2
      exact ⟨q, List.mem_cons_of_mem _ hq, hh⟩

/-- C7: in every archive `write_archive` writes (for any conforming
collaborators and any `HashMap` iteration order, i.e. any permutation of
the entry map), the serialized `FileEntry` records appear in ascending
`name_hash_64` order. -/
theorem c7_index_entries_sorted (c : Codec) (crc : Bytes → Nat) (sha1 : Bytes → Bytes)
    (fnv : Bytes → Nat) (hash_map : List Nat) (files : List FileInput)
    (iter : List (Nat × ZipEntry) → List (Nat × ZipEntry))
    (hiter : ∀ l, (iter l).Perm l) :
    (indexEntriesOf (write_archive c crc sha1 fnv hash_map files iter)).Pairwise
      (fun a b => a.name_hash_64 ≤ b.name_hash_64) := by
  rcases hw : write_archive c crc sha1 fnv hash_map files iter with _ | p
  · simp [indexEntriesOf]
  · simp only [write_archive] at hw
    rcases hcf : stage_custom_footer c hash_map
        (sortByKey (fun p => p.2) (files.map (fun f => (f, fnv f.relpath)))) with _ | out1
    · rw [hcf] at hw
      exact Option.noConfusion hw
    rw [hcf] at hw
    have hw2 : (pack_files c sha1 out1 []
        (sortByKey (fun p => p.2) (files.map (fun f => (f, fnv f.relpath))))).bind
        (fun pr => some (assemble_tail crc pr.1 (renumberPairs 0 (iter pr.2))
          (out1.length - 172), renumberPairs 0 (iter pr.2))) = some p := hw
    rcases hpk : pack_files c sha1 out1 []
        (sortByKey (fun p => p.2) (files.map (fun f => (f, fnv f.relpath)))) with _ | pr
    · rw [hpk] at hw2
      exact Option.noConfusion hw2
    obtain ⟨out2, m⟩ := pr
    rw [hpk, Option.some_bind] at hw2
    injection hw2 with hw2
    have hp2 : p.2 = renumberPairs 0 (iter m) :=
      (congrArg Prod.snd hw2).symm
    simp only [indexEntriesOf, Option.elim]
    unfold write_index_entries
    rw [List.pairwise_map]
    refine (pairwise_sortByKey ZipEntry.hash (p.2.map Prod.snd)).imp_of_mem ?_
    intro a b ha hb hab
    have hname : ∀ x ∈ sortByKey ZipEntry.hash (p.2.map Prod.snd),
        x.entry.name_hash_64 = x.hash := by
      intro x hx
      have hx2 := (mem_sortByKey ZipEntry.hash _ x).mp hx
      obtain ⟨q, hq, hqx⟩ := List.mem_map.mp hx2
      rw [hp2] at hq
      obtain ⟨q0, hq0, _, hh2, hh3⟩ := mem_renumberPairs (iter m) 0 q hq
      have hq0m : q0 ∈ m := ((hiter m).mem_iff).mp hq0
      have hg := pack_files_good c sha1 _ _ _ _ (by simp) hpk q0 hq0m
      rw [← hqx, hh3, hh2, hg.2, hg.1]
    rw [hname a ha, hname b hb]
    exact hab

/-- Witness for C7: a two-file archive packed with the identity iteration
order. -/
theorem c7_index_entries_sorted_witness :
    (indexEntriesOf (write_archive cRaw zeroCrc sha20 c2fnv [] [c2a, c2b]
      (fun l => l))).Pairwise (fun a b => a.name_hash_64 ≤ b.name_hash_64) :=
  c7_index_entries_sorted cRaw zeroCrc sha20 c2fnv [] [c2a, c2b] (fun l => l)
    (fun l => List.Perm.refl l)

/-- C10: when the packed sequence contains two files with the same
FNV-1a/64 hash, the pack loop still succeeds, the entry map keys stay
duplicate-free (exactly one entry per hash), the entry count is strictly
below the file count, and every hash resolves to the entry built from the
later-packed file with that hash. -/
theorem c10_duplicate_hash_last_wins (c : Codec) (sha1 : Bytes → Bytes)
    (fs : List (FileInput × Nat)) (out0 out : Bytes) (m : List (Nat × ZipEntry))
    (hdup : ¬ (fs.map (fun p => p.2)).Nodup)
    (hres : pack_files c sha1 out0 [] fs = some (out, m)) :
    (m.map Prod.fst).Nodup
    ∧ m.length < fs.length
    ∧ ∀ h ∈ fs.map (fun p => p.2),
        (lookupA m h).map (fun e => e.entry.sha1_hash)
          = (lastWith fs h).map (fun f => sha1 f.bytes) := by
  have hnd : (m.map Prod.fst).Nodup :=
    pack_files_nodup_keys c sha1 fs out0 [] (out, m) (by simp) hres
  refine ⟨hnd, ?_, ?_⟩
  · have hkeys := pack_files_keys c sha1 fs out0 [] (out, m) hres
    have hkeys2 : ∀ k : Nat, k ∈ m.map Prod.fst ↔ k ∈ fs.map (fun p => p.2) := by
      intro k
      have := hkeys k
      simpa using this
    have hperm : (m.map Prod.fst).Perm (fs.map (fun p => p.2)).dedup :=
      (List.perm_ext_iff_of_nodup hnd (List.nodup_dedup _)).mpr
        (fun a => by rw [List.mem_dedup]; exact hkeys2 a)
    have hlen1 : m.length = (fs.map (fun p => p.2)).dedup.length := by
      have := hperm.length_eq
      simpa using this
    have hlt : (fs.map (fun p => p.2)).dedup.length < (fs.map (fun p => p.2)).length := by
      have hle := (List.dedup_sublist (fs.map (fun p => p.2))).length_le
      rcases Nat.lt_or_ge ((fs.map (fun p => p.2)).dedup.length)
        ((fs.map (fun p => p.2)).length) with hlt2 | hge
      · exact hlt2
      · exfalso
        have heq := (List.dedup_sublist (fs.map (fun p => p.2))).eq_of_length (by omega)
        exact hdup (List.dedup_eq_self.mp heq)
    have hml : (fs.map (fun p => p.2)).length = fs.length := by simp
    omega
  · intro h hmem
    exact (pack_files_lookup c sha1 fs out0 [] (out, m) hres h).1 hmem

/-- Witness for C10: two files with hash 42; the pack retains one entry,
the later file's. -/
theorem c10_duplicate_hash_last_wins_witness :
    (([(42, c10e)] : List (Nat × ZipEntry)).map Prod.fst).Nodup
    ∧ ([(42, c10e)] : List (Nat × ZipEntry)).length < c10fs.length
    ∧ ∀ h ∈ c10fs.map (fun p => p.2),
        (lookupA [(42, c10e)] h).map (fun e => e.entry.sha1_hash)
          = (lastWith c10fs h).map (fun f => f.bytes) :=
  c10_duplicate_hash_last_wins cRaw (fun b => b) c10fs [] [1, 2, 3, 4, 5, 6]
    [(42, c10e)] (by decide) (by decide)

end Red4Lib
